import Mathlib

/-!
Verification of the om-lite Clause Engine against its natural-language
specification.  The definitions below are a shallow embedding of the
TypeScript source:

* `ClauseStore.*`   embeds `src/src/core/extraction.ts` (class ClauseStore)
* `DecayRunner.*`   embeds the decay module (class DecayRunner)
* `Retriever.*`     embeds the retrieval module (class Retriever)
* `DB`              embeds the SQLite state touched by those classes
  (tables `clauses`, `conflicts`, `decay_log`, `access_log`, `metadata`);
  the schema CHECK constraints on `confidence` and `decay_rate` are
  modelled by `clauseCheckOk`: an INSERT or UPDATE that violates them
  throws in the source, which the embedding renders as `Option.none`.

Numbers are embedded as `ℚ`; timestamps are rationals counting days, so
that the decay formula `(now - last_accessed) in days` is a subtraction.
The natural logarithm appearing in the decay divisor
`1 + Math.log(reinforcement_count + 1)` is kept abstract as a parameter
`logDiv : ℕ → ℚ` so that everything stays computable; theorems assume of
it only what `fun r => 1 + Real.log (r + 1)` satisfies (positivity, and
value `1` at `0`).  External collaborators (the FTS5 text index and the
embedding similarity provider) are oracle parameters, as the spec
classifies them as external interfaces.
-/

/-- One row of the `clauses` table. -/
structure Clause where
  id : Nat
  type : String
  subject : String
  predicate : String
  object : String
  natural_form : String
  valid_from : ℚ
  valid_to : Option ℚ
  recorded_at : ℚ
  confidence : ℚ
  decay_rate : ℚ
  reinforcement_count : Nat
  source_id : String
  extraction_method : String
  last_accessed : ℚ
  access_count : Nat
  tags : List String
  metadata : List (String × String)
  deriving Repr, DecidableEq

/-- One row of the `conflicts` table. -/
structure Conflict where
  id : Nat
  clause_a_id : Nat
  clause_b_id : Nat
  conflict_type : String
  description : String
  status : String
  resolution : Option String
  resolved_at : Option ℚ
  detected_at : ℚ
  deriving Repr, DecidableEq

/-- One row of the append-only `decay_log` table. -/
structure DecayLogEntry where
  clause_id : Nat
  previous_confidence : ℚ
  new_confidence : ℚ
  reason : String
  deriving Repr, DecidableEq

/-- One row of the append-only `access_log` table. -/
structure AccessLogEntry where
  clause_id : Nat
  access_type : String
  context : String
  deriving Repr, DecidableEq

/-- The SQLite state touched by the clause engine.  `nextId` models the
time-sortable uuidv7 generator as a counter. -/
structure DB where
  clauses : List Clause
  conflicts : List Conflict
  decay_log : List DecayLogEntry
  access_log : List AccessLogEntry
  metadata : List (String × String)
  nextId : Nat
  deriving Repr, DecidableEq

/-- The empty database. -/
def DB.empty : DB := ⟨[], [], [], [], [], 0⟩

/-- Set a key in an association list (models both `json_set` on a JSON
metadata column and the `metadata` key/value table upsert). -/
def setKey (m : List (String × String)) (k v : String) : List (String × String) :=
  if m.any (fun p => p.1 = k) then m.map (fun p => if p.1 = k then (k, v) else p)
  else m ++ [(k, v)]

/-- Look a key up in an association list. -/
def getKey (m : List (String × String)) (k : String) : Option String :=
  (m.find? (fun p => p.1 = k)).map (·.2)

/-- Read a metadata value (`DatabaseManager.getMetadata`). -/
def DB.getMeta (db : DB) (k : String) : Option String := getKey db.metadata k

/-- Write a metadata value (`DatabaseManager.setMetadata`). -/
def DB.setMeta (db : DB) (k v : String) : DB :=
  { db with metadata := setKey db.metadata k v }

/-- Apply `f` to every clause row whose id is `id`
(an `UPDATE clauses SET ... WHERE id = ?`). -/
def DB.updateClause (db : DB) (id : Nat) (f : Clause → Clause) : DB :=
  { db with clauses := db.clauses.map (fun c => if c.id = id then f c else c) }

/-- Find the clause row with the given id (`SELECT * FROM clauses WHERE id = ?`). -/
def DB.findClause (db : DB) (id : Nat) : Option Clause :=
  db.clauses.find? (fun c => c.id = id)

/-- Append a decay_log row (`ClauseStore.logDecay` / `DecayRunner.logDecay`). -/
def DB.logDecay (db : DB) (cid : Nat) (prev new : ℚ) (reason : String) : DB :=
  { db with decay_log := db.decay_log ++ [⟨cid, prev, new, reason⟩] }

/-- Append an access_log row (`logAccess`). -/
def DB.logAccess (db : DB) (cid : Nat) (atype ctx : String) : DB :=
  { db with access_log := db.access_log ++ [⟨cid, atype, ctx⟩] }

/-- The closed enumeration of clause types accepted by the schema CHECK. -/
def clauseTypes : List String :=
  ["fact", "preference", "habit", "skill", "relationship", "intention",
   "context", "correction", "skill_success", "skill_failure", "skill_preference"]

/-- The schema CHECK constraints on a `clauses` row:
`confidence REAL CHECK (confidence >= 0 AND confidence <= 1)`,
`decay_rate REAL CHECK (decay_rate >= 0)`, and the `type IN (...)` CHECK.
An INSERT or UPDATE producing a row that violates these throws. -/
def clauseCheckOk (c : Clause) : Bool :=
  decide (0 ≤ c.confidence) && decide (c.confidence ≤ 1) &&
  decide (0 ≤ c.decay_rate) && clauseTypes.contains c.type

/-- Predicates that can only have one active value at a time
(`SINGLETON_PREDICATES` in extraction.ts). -/
def SINGLETON_PREDICATES : List String :=
  ["lives_in", "works_at", "email_address", "phone_number", "uses_for_notes",
   "preferred_language", "timezone", "full_name", "is_located_in",
   "home_address", "primary_calendar"]

/-- Predicates that can have multiple values (`MULTI_VALUE_PREDICATES`). -/
def MULTI_VALUE_PREDICATES : List String :=
  ["likes", "dislikes", "interested_in", "skilled_at", "knows",
   "speaks_language", "has_hobby", "member_of", "integrates_with", "can_perform"]

/-- Default decay rates by clause type (`DEFAULT_DECAY_RATES`). -/
def DEFAULT_DECAY_RATES : String → Option ℚ
  | "fact" => some 0.0005
  | "preference" => some 0.002
  | "habit" => some 0.001
  | "skill" => some 0.0002
  | "relationship" => some 0.001
  | "intention" => some 0.01
  | "context" => some 0.05
  | "correction" => some 0.001
  | "skill_success" => some 0.002
  | "skill_failure" => some 0.01
  | "skill_preference" => some 0.002
  | _ => none

/-- String.toLowerCase, written as a structural map over the character
list so that it reduces in the kernel. -/
def lowerStr (s : String) : String := ⟨s.data.map Char.toLower⟩

/-- Digit-list accumulator for `parseNat`. -/
def parseNatAux : List Char → Nat → Option Nat
  | [], acc => some acc
  | c :: cs, acc =>
      if c.isDigit then parseNatAux cs (acc * 10 + (c.toNat - 48)) else none

/-- parseInt(s, 10) restricted to the canonical digit strings the engine
itself writes into its metadata counters; structural so it reduces. -/
def parseNat (s : String) : Option Nat :=
  if s.data.isEmpty then none else parseNatAux s.data 0

/-- The `ClauseInput` shape accepted by `ClauseStore.create` and
`processNewClause` (optional fields are `Option`). -/
structure ClauseInput where
  type : String
  subject : String
  predicate : String
  object : String
  natural_form : String
  valid_from : Option ℚ := none
  confidence : Option ℚ := none
  decay_rate : Option ℚ := none
  tags : List String := []
  metadata : List (String × String) := []
  source_id : String := "manual"
  extraction_method : String := "manual"
  deriving Repr

/-- ClauseStore.create: assigns id and timestamps, defaults decay_rate by
type (falling back to 0.001) and confidence to 0.8 when absent — with no
clamping — then INSERTs the row.  The INSERT is subject to the schema
CHECK: an out-of-range confidence makes the statement throw, modelled as
`none`.  On success it also bumps the `total_clauses_extracted` metadata
counter. -/
def ClauseStore.create (db : DB) (now : ℚ) (input : ClauseInput) :
    Option (Clause × DB) :=
  let decayRate := input.decay_rate.getD ((DEFAULT_DECAY_RATES input.type).getD 0.001)
  let c : Clause :=
    { id := db.nextId
      type := input.type
      subject := input.subject
      predicate := input.predicate
      object := input.object
      natural_form := input.natural_form
      valid_from := input.valid_from.getD now
      valid_to := none
      recorded_at := now
      confidence := input.confidence.getD 0.8
      decay_rate := decayRate
      reinforcement_count := 0
      source_id := input.source_id
      extraction_method := input.extraction_method
      last_accessed := now
      access_count := 0
      tags := input.tags
      metadata := input.metadata }
  if clauseCheckOk c then
    let current := ((db.getMeta "total_clauses_extracted").bind parseNat).getD 0
    let db1 := { db with clauses := db.clauses ++ [c], nextId := db.nextId + 1 }
    some (c, db1.setMeta "total_clauses_extracted" (toString (current + 1)))
  else none

/-- ClauseStore.get: returns the row as read and, as a side effect, bumps
`last_accessed` and `access_count` on it. -/
def ClauseStore.get (db : DB) (now : ℚ) (id : Nat) : Option Clause × DB :=
  match db.findClause id with
  | none => (none, db)
  | some row =>
      (some row,
       db.updateClause id
         (fun c => { c with last_accessed := now, access_count := c.access_count + 1 }))

/-- The restricted update shape accepted by `ClauseStore.update`
(only confidence, decay_rate, tags, metadata, natural_form may change). -/
structure ClauseUpdate where
  confidence : Option ℚ := none
  decay_rate : Option ℚ := none
  tags : Option (List String) := none
  metadata : Option (List (String × String)) := none
  natural_form : Option String := none
  deriving Repr

/-- Whether a `ClauseUpdate` touches at least one allowed field. -/
def ClauseUpdate.nonEmpty (u : ClauseUpdate) : Bool :=
  u.confidence.isSome || u.decay_rate.isSome || u.tags.isSome ||
  u.metadata.isSome || u.natural_form.isSome

/-- Apply the SET list of `ClauseStore.update` to a row. -/
def ClauseUpdate.apply (u : ClauseUpdate) (c : Clause) : Clause :=
  { c with
    confidence := u.confidence.getD c.confidence
    decay_rate := u.decay_rate.getD c.decay_rate
    tags := u.tags.getD c.tags
    metadata := u.metadata.getD c.metadata
    natural_form := u.natural_form.getD c.natural_form }

/-- ClauseStore.update: fetches the row via `get` (which bumps access
tracking), applies only the allowed fields, and re-reads.  The UPDATE is
subject to the schema CHECK (outer `none` = statement threw); the inner
`Option Clause` is the NotFound case, returned as null in the source. -/
def ClauseStore.update (db : DB) (now : ℚ) (id : Nat) (u : ClauseUpdate) :
    Option (Option Clause × DB) :=
  match ClauseStore.get db now id with
  | (none, db1) => some (none, db1)
  | (some existing, db1) =>
      if u.nonEmpty then
        let updated := u.apply existing
        if clauseCheckOk updated then
          let db2 := db1.updateClause id (fun c => u.apply c)
          some (ClauseStore.get db2 now id)
        else none
      else some (some existing, db1)

/-- ClauseStore.invalidate: an unconditional
`UPDATE clauses SET valid_to = ?, metadata = json_set(metadata,
invalidation_reason, ?) WHERE id = ?` — there is no guard on the row
already being invalid. -/
def ClauseStore.invalidate (db : DB) (now : ℚ) (id : Nat) (reason : Option String) : DB :=
  db.updateClause id (fun c =>
    { c with
      valid_to := some now
      metadata := setKey c.metadata "invalidation_reason" (reason.getD "invalidated") })

/-- ClauseStore.reinforce: reads the clause (bumping access via `get`),
raises confidence by `amount` capped at 1, bumps reinforcement_count and
access tracking, and logs to decay_log and access_log.  The UPDATE is
subject to the schema CHECK (a negative amount could drive `min 1
(confidence + amount)` below 0). -/
def ClauseStore.reinforce (db : DB) (now : ℚ) (id : Nat) (amount : ℚ) : Option DB :=
  match ClauseStore.get db now id with
  | (none, db1) => some db1
  | (some clause, db1) =>
      let newConfidence := min 1 (clause.confidence + amount)
      if decide (0 ≤ newConfidence) && decide (newConfidence ≤ 1) then
        let db2 := db1.updateClause id (fun c =>
          { c with
            confidence := newConfidence
            reinforcement_count := c.reinforcement_count + 1
            last_accessed := now
            access_count := c.access_count + 1 })
        let db3 := db2.logDecay id clause.confidence newConfidence "reinforcement"
        some (db3.logAccess id "reinforcement" "successful_use")
      else none

/-- The relation classification returned by `ClauseStore.analyzeRelation`. -/
inductive Relation where
  | identical | supersession | contradiction | coexistent
  deriving Repr, DecidableEq

/-- ClauseStore.analyzeRelation: decision over case-insensitive object
equality and the two hard-coded predicate lists. -/
def ClauseStore.analyzeRelation (old : Clause) (input : ClauseInput) : Relation :=
  if lowerStr old.object = lowerStr input.object then .identical
  else if SINGLETON_PREDICATES.contains old.predicate then .supersession
  else if MULTI_VALUE_PREDICATES.contains old.predicate then .coexistent
  else .contradiction

/-- ClauseStore.createConflict: INSERTs a pending conflict row of type
contradiction referencing both clause ids, with a description naming the
two differing objects, and bumps the `total_conflicts_detected` counter. -/
def ClauseStore.createConflict (db : DB) (now : ℚ) (a b : Clause) : Conflict × DB :=
  let conflict : Conflict :=
    { id := db.nextId
      clause_a_id := a.id
      clause_b_id := b.id
      conflict_type := "contradiction"
      description := "Conflicting values for " ++ a.subject ++ "." ++ a.predicate ++
        ": \"" ++ a.object ++ "\" vs \"" ++ b.object ++ "\""
      status := "pending"
      resolution := none
      resolved_at := none
      detected_at := now }
  let current := ((db.getMeta "total_conflicts_detected").bind parseNat).getD 0
  let db1 := { db with conflicts := db.conflicts ++ [conflict], nextId := db.nextId + 1 }
  (conflict, db1.setMeta "total_conflicts_detected" (toString (current + 1)))

/-- The action reported by `processNewClause`. -/
inductive PNCAction where
  | insert | reinforced | superseded | conflict | skipped
  deriving Repr, DecidableEq

/-- The `ProcessClauseResult` shape. -/
structure ProcessClauseResult where
  action : PNCAction
  clause : Option Clause := none
  existingId : Option Nat := none
  invalidatedId : Option Nat := none
  conflict : Option Conflict := none
  deriving Repr

/-- The SQL filter of processNewClause: active rows sharing subject and
predicate with confidence strictly above 0.3. -/
def pncExisting (db : DB) (input : ClauseInput) : List Clause :=
  db.clauses.filter (fun c =>
    c.subject = input.subject && c.predicate = input.predicate &&
    c.valid_to = none && decide ((0.3 : ℚ) < c.confidence))

/-- ClauseStore.processNewClause: fetches active same-(subject,predicate)
clauses with confidence > 0.3; inserts directly when none exist;
otherwise classifies the relation against the first row and acts on it
(the source loop returns on its first iteration in every branch).
`none` models a thrown SQLite error (CHECK violation) in a nested write. -/
def ClauseStore.processNewClause (db : DB) (now : ℚ) (input : ClauseInput) :
    Option (ProcessClauseResult × DB) :=
  match pncExisting db input with
  | [] =>
      (ClauseStore.create db now input).map
        (fun p => ({ action := .insert, clause := some p.1 }, p.2))
  | old :: _ =>
      match ClauseStore.analyzeRelation old input with
      | .identical =>
          (ClauseStore.reinforce db now old.id 0.05).map
            (fun db1 => ({ action := .reinforced, existingId := some old.id }, db1))
      | .supersession =>
          let db1 := ClauseStore.invalidate db now old.id (some "superseded")
          (ClauseStore.create db1 now input).map
            (fun p => ({ action := .superseded, clause := some p.1,
                         invalidatedId := some old.id }, p.2))
      | .contradiction =>
          (ClauseStore.create db now input).map
            (fun p =>
              let cc := ClauseStore.createConflict p.2 now old p.1
              ({ action := .conflict, clause := some p.1, conflict := some cc.1 }, cc.2))
      | .coexistent =>
          (ClauseStore.create db now input).map
            (fun p => ({ action := .insert, clause := some p.1 }, p.2))

/-! ### Invariant helpers -/

/-- Every persisted clause has confidence in [0,1]. -/
def dbConfOk (db : DB) : Prop :=
  ∀ c ∈ db.clauses, 0 ≤ c.confidence ∧ c.confidence ≤ 1

theorem dbConfOk_updateClause {db : DB} {id : Nat} {f : Clause → Clause}
    (h : dbConfOk db)
    (hf : ∀ c, (0 ≤ c.confidence ∧ c.confidence ≤ 1) →
      0 ≤ (f c).confidence ∧ (f c).confidence ≤ 1) :
    dbConfOk (db.updateClause id f) := by
  intro c' hc'
  simp only [DB.updateClause, List.mem_map] at hc'
  obtain ⟨c, hc, rfl⟩ := hc'
  by_cases hid : c.id = id
  · simpa [hid] using hf c (h c hc)
  · simpa [hid] using h c hc

theorem ClauseStore.create_eq_some {db : DB} {now : ℚ} {input : ClauseInput}
    {c : Clause} {db' : DB} (h : ClauseStore.create db now input = some (c, db')) :
    clauseCheckOk c = true ∧ db'.clauses = db.clauses ++ [c] ∧
      c.confidence = input.confidence.getD 0.8 := by
  simp only [ClauseStore.create] at h
  split at h
  · simp only [Option.some.injEq, Prod.mk.injEq] at h
    obtain ⟨rfl, rfl⟩ := h
    refine ⟨by assumption, rfl, rfl⟩
  · exact absurd h (by simp)

theorem clauseCheckOk_confidence {c : Clause} (h : clauseCheckOk c = true) :
    0 ≤ c.confidence ∧ c.confidence ≤ 1 := by
  simp only [clauseCheckOk, Bool.and_eq_true, decide_eq_true_eq] at h
  exact ⟨h.1.1.1, h.1.1.2⟩

/-! ### Claim C1 -/

/-- A create input whose confidence 2 lies outside [0,1]. -/
def c1BadInput : ClauseInput :=
  { type := "fact", subject := "s", predicate := "p", object := "o",
    natural_form := "n", confidence := some 2 }

/-- Claim C1 counterexample: `create` does not clamp.  With input
confidence 2 (outside [0,1]) the INSERT violates the storage CHECK
constraint and throws, so `create` persists nothing at all — refuting
the claim that create persists a value in [0,1] even when the input
confidence lies outside that range. -/
theorem create_out_of_range_confidence_fails :
    ClauseStore.create DB.empty 0 c1BadInput = none ∧
      ¬ ∃ c db', ClauseStore.create DB.empty 0 c1BadInput = some (c, db') := by
  refine ⟨by decide, ?_⟩
  rintro ⟨c, db', h⟩
  rw [show ClauseStore.create DB.empty 0 c1BadInput = none by decide] at h
  exact Option.noConfusion h


/-- Claim C1 (amended): neither create nor update clamps confidence;
instead the storage CHECK constraint rejects out-of-range values, so
every write that succeeds leaves every clause with confidence in [0,1].
Create defaults confidence to 0.8 when absent; update (restricted to its
allowed field set) never persists an out-of-range confidence. -/
theorem confidence_in_range_after_writes (db : DB) (now : ℚ) (input : ClauseInput)
    (id : Nat) (u : ClauseUpdate) (c : Clause) (db₁ : DB)
    (r : Option Clause) (db₂ : DB) (hdb : dbConfOk db)
    (hc : ClauseStore.create db now input = some (c, db₁))
    (hu : ClauseStore.update db now id u = some (r, db₂)) :
    (0 ≤ c.confidence ∧ c.confidence ≤ 1) ∧ dbConfOk db₁ ∧
      (input.confidence = none → c.confidence = 0.8) ∧ dbConfOk db₂ := by
  obtain ⟨hchk, hcl, hconf⟩ := ClauseStore.create_eq_some hc
  have hrange := clauseCheckOk_confidence hchk
  refine ⟨hrange, ?_, ?_, ?_⟩
  · intro x hx
    rw [hcl] at hx
    rcases List.mem_append.mp hx with hx | hx
    · exact hdb x hx
    · simp only [List.mem_singleton] at hx
      exact hx ▸ hrange
  · intro hnone
    rw [hconf, hnone]
    rfl
  · have hbump : ∀ (d : DB), dbConfOk d → dbConfOk
        (d.updateClause id (fun c =>
          { c with last_accessed := now, access_count := c.access_count + 1 })) := by
      intro d hd
      exact dbConfOk_updateClause hd (fun c hc => hc)
    simp only [ClauseStore.update, ClauseStore.get] at hu
    cases hfind : db.findClause id with
    | none =>
        rw [hfind] at hu
        simp only [Option.some.injEq, Prod.mk.injEq] at hu
        exact hu.2 ▸ hdb
    | some row =>
        rw [hfind] at hu
        simp only at hu
        by_cases hne : u.nonEmpty
        · rw [if_pos hne] at hu
          by_cases hchk2 : clauseCheckOk (u.apply row)
          · rw [if_pos hchk2] at hu
            have hconfA : ∀ c, (0 ≤ c.confidence ∧ c.confidence ≤ 1) →
                0 ≤ (u.apply c).confidence ∧ (u.apply c).confidence ≤ 1 := by
              intro c hc
              cases huc : u.confidence with
              | none => simpa [ClauseUpdate.apply, huc] using hc
              | some v =>
                  have := clauseCheckOk_confidence hchk2
                  simp only [ClauseUpdate.apply, huc, Option.getD_some] at this ⊢
                  exact this
            set dbA := db.updateClause id (fun c =>
              { c with last_accessed := now, access_count := c.access_count + 1 }) with hA
            have hdbA : dbConfOk dbA := hbump db hdb
            have hdbB : dbConfOk (dbA.updateClause id (fun c => u.apply c)) :=
              dbConfOk_updateClause hdbA hconfA
            set dbB := dbA.updateClause id (fun c => u.apply c) with hB
            cases hf2 : dbB.findClause id with
            | none =>
                rw [hf2] at hu
                simp only [Option.some.injEq, Prod.mk.injEq] at hu
                exact hu.2 ▸ hdbB
            | some row2 =>
                rw [hf2] at hu
                simp only [Option.some.injEq, Prod.mk.injEq] at hu
                exact hu.2 ▸ hbump dbB hdbB
          · rw [if_neg hchk2] at hu
            exact Option.noConfusion hu
        · rw [if_neg hne] at hu
          simp only [Option.some.injEq, Prod.mk.injEq] at hu
          exact hu.2 ▸ hbump db hdb

/-- A concrete create input with no confidence supplied. -/
def c1wIn : ClauseInput :=
  { type := "fact", subject := "s", predicate := "p", object := "o",
    natural_form := "n" }

/-- The clause `create DB.empty 0 c1wIn` persists. -/
def c1wClause : Clause :=
  { id := 0, type := "fact", subject := "s", predicate := "p", object := "o",
    natural_form := "n", valid_from := 0, valid_to := none, recorded_at := 0,
    confidence := 0.8, decay_rate := 0.0005, reinforcement_count := 0,
    source_id := "manual", extraction_method := "manual", last_accessed := 0,
    access_count := 0, tags := [], metadata := [] }

/-- The database state after that create. -/
def c1wDB : DB :=
  { clauses := [c1wClause], conflicts := [], decay_log := [], access_log := [],
    metadata := [("total_clauses_extracted", "1")], nextId := 1 }

theorem c1w_create_eval : ClauseStore.create DB.empty 0 c1wIn = some (c1wClause, c1wDB) := by
  norm_num [ClauseStore.create, c1wIn, clauseCheckOk, clauseTypes, DEFAULT_DECAY_RATES,
    DB.empty, DB.getMeta, DB.setMeta, getKey, setKey, c1wClause, c1wDB]
  decide

theorem c1w_update_eval : ClauseStore.update DB.empty 0 7 {} = some (none, DB.empty) := by
  norm_num [ClauseStore.update, ClauseStore.get, DB.findClause, DB.empty]

/-- Claim C1 witness: the amended theorem applied to the empty store, a
create input without confidence, and an update on a missing id. -/
theorem confidence_in_range_after_writes_witness :
    (0 ≤ c1wClause.confidence ∧ c1wClause.confidence ≤ 1) ∧ dbConfOk c1wDB ∧
      (c1wIn.confidence = none → c1wClause.confidence = 0.8) ∧ dbConfOk DB.empty :=
  confidence_in_range_after_writes DB.empty 0 c1wIn 7 {} c1wClause c1wDB none DB.empty
    (by intro c hc; simp [DB.empty] at hc) c1w_create_eval c1w_update_eval

/-! ### Claim C2 -/

/-- A (user, lives_in, o) candidate of type fact with confidence `conf`. -/
def c2In (o : String) (conf : ℚ) : ClauseInput :=
  { type := "fact", subject := "user", predicate := "lives_in",
    object := o, natural_form := "nf", confidence := some conf, source_id := "src" }

/-- Number of active clauses for (user, lives_in) in a database. -/
def c2ActiveCount (db : DB) : Nat :=
  (db.clauses.filter (fun c =>
    c.subject = "user" && c.predicate = "lives_in" && c.valid_to = none)).length

/-- The state reached by processing Seattle then Denver candidates with
confidence 0.2 each. -/
def c2FinalState : Option DB :=
  (ClauseStore.processNewClause DB.empty 0 (c2In "Seattle" (1/5))).bind fun p =>
    (ClauseStore.processNewClause p.2 1 (c2In "Denver" (1/5))).map (·.2)

/-- Claim C2 counterexample: processNewClause only consults existing
active clauses with confidence strictly above 0.3, so after two
candidates for the singleton predicate lives_in with the same subject,
different objects, and confidence 0.2 each, BOTH clauses are active: the
reachable state has two active clauses for (user, lives_in), refuting the
at-most-one invariant. -/
theorem singleton_invariant_violated_at_low_confidence :
    SINGLETON_PREDICATES.contains "lives_in" = true ∧
      c2FinalState.map c2ActiveCount = some 2 := by
  refine ⟨by decide, ?_⟩
  norm_num [c2FinalState, c2In, c2ActiveCount, ClauseStore.processNewClause,
    pncExisting, ClauseStore.create, clauseCheckOk, clauseTypes, DEFAULT_DECAY_RATES,
    DB.empty, DB.getMeta, DB.setMeta, getKey, setKey, Option.bind]

/-- The clause persisted for the first (Seattle) candidate. -/
def c2Clause1 (cf now1 : ℚ) : Clause :=
  { id := 0, type := "fact", subject := "user", predicate := "lives_in",
    object := "Seattle", natural_form := "nf", valid_from := now1, valid_to := none,
    recorded_at := now1, confidence := cf, decay_rate := 0.0005,
    reinforcement_count := 0, source_id := "src", extraction_method := "manual",
    last_accessed := now1, access_count := 0, tags := [], metadata := [] }

/-- The database after the first candidate. -/
def c2DB1 (cf now1 : ℚ) : DB :=
  { clauses := [c2Clause1 cf now1], conflicts := [], decay_log := [], access_log := [],
    metadata := [("total_clauses_extracted", "1")], nextId := 1 }

theorem c2_eval1 (cf now1 : ℚ) (h0 : 0 ≤ cf) (h1 : cf ≤ 1) :
    ClauseStore.processNewClause DB.empty now1 (c2In "Seattle" cf) =
      some ({ action := .insert, clause := some (c2Clause1 cf now1) }, c2DB1 cf now1) := by
  norm_num [ClauseStore.processNewClause, pncExisting, ClauseStore.create, c2In,
    clauseCheckOk, clauseTypes, DEFAULT_DECAY_RATES, DB.empty, DB.getMeta, DB.setMeta,
    getKey, setKey, c2Clause1, c2DB1, h0, h1]
  decide

/-- The Seattle clause after being superseded at time now2. -/
def c2Clause1Inv (cf now1 now2 : ℚ) : Clause :=
  { id := 0, type := "fact", subject := "user", predicate := "lives_in",
    object := "Seattle", natural_form := "nf", valid_from := now1,
    valid_to := some now2, recorded_at := now1, confidence := cf,
    decay_rate := 0.0005, reinforcement_count := 0, source_id := "src",
    extraction_method := "manual", last_accessed := now1, access_count := 0,
    tags := [], metadata := [("invalidation_reason", "superseded")] }

/-- The clause persisted for the second (Denver) candidate. -/
def c2Clause2 (cf now2 : ℚ) : Clause :=
  { id := 1, type := "fact", subject := "user", predicate := "lives_in",
    object := "Denver", natural_form := "nf", valid_from := now2, valid_to := none,
    recorded_at := now2, confidence := cf, decay_rate := 0.0005,
    reinforcement_count := 0, source_id := "src", extraction_method := "manual",
    last_accessed := now2, access_count := 0, tags := [], metadata := [] }

/-- The database after the Denver candidate supersedes the Seattle one. -/
def c2DB2 (cf1 cf2 now1 now2 : ℚ) : DB :=
  { clauses := [c2Clause1Inv cf1 now1 now2, c2Clause2 cf2 now2],
    conflicts := [], decay_log := [], access_log := [],
    metadata := [("total_clauses_extracted", "2")], nextId := 2 }

theorem c2_eval2 (cf1 cf2 now1 now2 : ℚ) (ha : (3:ℚ)/10 < cf1)
    (h0 : 0 ≤ cf2) (h1 : cf2 ≤ 1) :
    ClauseStore.processNewClause (c2DB1 cf1 now1) now2 (c2In "Denver" cf2) =
      some ({ action := .superseded, clause := some (c2Clause2 cf2 now2),
              invalidatedId := some 0 }, c2DB2 cf1 cf2 now1 now2) := by
  have hlow : lowerStr "Seattle" ≠ lowerStr "Denver" := by decide
  have hpn : parseNat "1" = some 1 := by decide
  have hts : toString (2:Nat) = "2" := by decide
  norm_num [ClauseStore.processNewClause, pncExisting, ClauseStore.create,
    ClauseStore.analyzeRelation, ClauseStore.invalidate, DB.updateClause, c2In,
    clauseCheckOk, clauseTypes, DEFAULT_DECAY_RATES, DB.getMeta, DB.setMeta,
    getKey, setKey, c2Clause1, c2DB1, c2Clause1Inv,
    c2Clause2, c2DB2, SINGLETON_PREDICATES, List.filter_cons,
    hlow, hpn, hts, ha, h0, h1]

/-- Claim C2 (amended): the singleton rule is enforced only for
candidates whose existing active match has confidence above 0.3 (the
processNewClause query filter).  In that regime the scenario holds:
after two candidates with subject user, singleton predicate lives_in and
different objects, the second supersedes the first — exactly one active
clause for (user, lives_in) remains, and the other is invalidated with
reason superseded.  (The unrestricted at-most-one invariant fails when
active clauses have confidence at most 0.3; see the counterexample.) -/
theorem processNewClause_singleton_supersedes
    (cf1 cf2 now1 now2 : ℚ) (r1 r2 : ProcessClauseResult) (db1 db2 : DB)
    (ha : (3:ℚ)/10 < cf1) (hb : cf1 ≤ 1) (hc : (3:ℚ)/10 < cf2) (hd : cf2 ≤ 1)
    (hp1 : ClauseStore.processNewClause DB.empty now1 (c2In "Seattle" cf1) =
      some (r1, db1))
    (hp2 : ClauseStore.processNewClause db1 now2 (c2In "Denver" cf2) =
      some (r2, db2)) :
    r2.action = .superseded ∧ r2.invalidatedId = some 0 ∧
      db2.clauses.map (fun c => (c.object, c.valid_to)) =
        [("Seattle", some now2), ("Denver", none)] ∧
      c2ActiveCount db2 = 1 ∧
      db2.clauses.head?.map (fun c => getKey c.metadata "invalidation_reason") =
        some (some "superseded") := by
  have h01 : (0:ℚ) ≤ cf1 := le_of_lt (lt_trans (by norm_num) ha)
  have h02 : (0:ℚ) ≤ cf2 := le_of_lt (lt_trans (by norm_num) hc)
  rw [c2_eval1 cf1 now1 h01 hb] at hp1
  simp only [Option.some.injEq, Prod.mk.injEq] at hp1
  obtain ⟨-, rfl⟩ := hp1
  rw [c2_eval2 cf1 cf2 now1 now2 ha h02 hd] at hp2
  simp only [Option.some.injEq, Prod.mk.injEq] at hp2
  obtain ⟨rfl, rfl⟩ := hp2
  refine ⟨rfl, rfl, ?_, ?_, ?_⟩ <;>
    norm_num [c2DB2, c2Clause1Inv, c2Clause2, c2ActiveCount, getKey,
      List.filter_cons, if_neg, Option.some_ne_none]

/-- Claim C2 witness: the amended theorem at the spec scenario confidences
0.9 and 0.95, times 0 and 1. -/
theorem processNewClause_singleton_supersedes_witness :
    ({ action := .superseded, clause := some (c2Clause2 0.95 1),
       invalidatedId := some 0 } : ProcessClauseResult).action = .superseded ∧
    ({ action := .superseded, clause := some (c2Clause2 0.95 1),
       invalidatedId := some 0 } : ProcessClauseResult).invalidatedId = some 0 ∧
    (c2DB2 0.9 0.95 0 1).clauses.map (fun c => (c.object, c.valid_to)) =
      [("Seattle", some 1), ("Denver", none)] ∧
    c2ActiveCount (c2DB2 0.9 0.95 0 1) = 1 ∧
    (c2DB2 0.9 0.95 0 1).clauses.head?.map
      (fun c => getKey c.metadata "invalidation_reason") = some (some "superseded") :=
  processNewClause_singleton_supersedes 0.9 0.95 0 1
    { action := .insert, clause := some (c2Clause1 0.9 0) }
    { action := .superseded, clause := some (c2Clause2 0.95 1), invalidatedId := some 0 }
    (c2DB1 0.9 0) (c2DB2 0.9 0.95 0 1)
    (by norm_num) (by norm_num) (by norm_num) (by norm_num)
    (c2_eval1 0.9 0 (by norm_num) (by norm_num))
    (c2_eval2 0.9 0.95 0 1 (by norm_num) (by norm_num) (by norm_num))

/-! ### Claim C3 -/

/-- An already-invalidated clause: valid_to was set to 5. -/
def c3Clause : Clause :=
  { id := 0, type := "fact", subject := "s", predicate := "p", object := "o",
    natural_form := "n", valid_from := 0, valid_to := some 5, recorded_at := 0,
    confidence := 1/2, decay_rate := 0, reinforcement_count := 0,
    source_id := "src", extraction_method := "manual", last_accessed := 0,
    access_count := 0, tags := [], metadata := [("invalidation_reason", "old")] }

/-- A store holding only that invalid clause. -/
def c3DB : DB :=
  { clauses := [c3Clause], conflicts := [], decay_log := [], access_log := [],
    metadata := [], nextId := 1 }

/-- Claim C3 counterexample: invalidate runs an unconditional UPDATE, so a
further invalidate call on a clause whose valid_to is already 5 OVERWRITES
valid_to with the new time 7 (and the stored reason), refuting that a
further invalidate leaves valid_to unchanged. -/
theorem invalidate_overwrites_existing_valid_to :
    c3Clause.valid_to = some 5 ∧
      (ClauseStore.invalidate c3DB 7 0 none).clauses.map (fun c => c.valid_to) =
        [some 7] ∧
      (some (5:ℚ) : Option ℚ) ≠ some 7 := by
  refine ⟨rfl, ?_, by decide⟩
  decide

/-- Claim C3 (amended): invalidate unconditionally sets valid_to of the
target row to the current time and records the invalidation reason; rows
with other ids are untouched.  The transition is one-way in the sense
that the target becomes (and any already-invalid row stays) invalid —
valid_to is never reset to null — but it is NOT idempotent: a repeated
invalidate overwrites valid_to with the newer timestamp. -/
theorem invalidate_one_way (db : DB) (now : ℚ) (id : Nat) (reason : Option String)
    (i : Nat) (c : Clause) (hc : db.clauses[i]? = some c) :
    (ClauseStore.invalidate db now id reason).clauses.length = db.clauses.length ∧
    (c.id = id → (ClauseStore.invalidate db now id reason).clauses[i]? =
      some { c with valid_to := some now,
                    metadata := setKey c.metadata "invalidation_reason"
                      (reason.getD "invalidated") }) ∧
    (c.id ≠ id → (ClauseStore.invalidate db now id reason).clauses[i]? = some c) ∧
    ((c.id = id ∨ c.valid_to ≠ none) → ∃ c',
      (ClauseStore.invalidate db now id reason).clauses[i]? = some c' ∧
        c'.valid_to ≠ none) := by
  have hmap : (ClauseStore.invalidate db now id reason).clauses[i]? =
      (db.clauses[i]?).map (fun c => if c.id = id then
        { c with valid_to := some now,
                 metadata := setKey c.metadata "invalidation_reason"
                   (reason.getD "invalidated") } else c) := by
    simp [ClauseStore.invalidate, DB.updateClause, List.getElem?_map]
  refine ⟨by simp [ClauseStore.invalidate, DB.updateClause], ?_, ?_, ?_⟩
  · intro hid
    rw [hmap, hc]
    simp [hid]
  · intro hid
    rw [hmap, hc]
    simp [hid]
  · intro hcase
    rw [hmap, hc]
    by_cases hid : c.id = id
    · refine ⟨{ c with valid_to := some now,
                       metadata := setKey c.metadata "invalidation_reason"
                         (reason.getD "invalidated") }, by simp [hid], by simp⟩
    · rcases hcase with hcase | hcase
      · exact absurd hcase hid
      · exact ⟨c, by simp [hid], hcase⟩

/-- Claim C3 witness: the amended theorem applied to the store holding the
already-invalid clause, invalidated again at time 7. -/
theorem invalidate_one_way_witness :
    (ClauseStore.invalidate c3DB 7 0 none).clauses.length = c3DB.clauses.length ∧
    (c3Clause.id = 0 → (ClauseStore.invalidate c3DB 7 0 none).clauses[0]? =
      some { c3Clause with valid_to := some 7,
                           metadata := setKey c3Clause.metadata "invalidation_reason"
                             ((none : Option String).getD "invalidated") }) ∧
    (c3Clause.id ≠ 0 → (ClauseStore.invalidate c3DB 7 0 none).clauses[0]? =
      some c3Clause) ∧
    ((c3Clause.id = 0 ∨ c3Clause.valid_to ≠ none) → ∃ c',
      (ClauseStore.invalidate c3DB 7 0 none).clauses[0]? = some c' ∧
        c'.valid_to ≠ none) :=
  invalidate_one_way c3DB 7 0 none 0 c3Clause rfl

/-! ### DecayRunner (decay module) -/

/-- The `DecayConfig` shape (constructor defaults of `DecayRunner`). -/
structure DecayConfig where
  enabled : Bool := true
  defaultRate : ℚ := 0.001
  minConfidence : ℚ := 0.1
  deriving Repr

/-- The `DecayReport` shape (the timestamp string is omitted: it is an
opaque wall-clock value). -/
structure DecayReport where
  processed : Nat
  decayed : Nat
  archived : Nat
  reinforced : Nat
  deriving Repr, DecidableEq

/-- The SET clause of the archive UPDATE of `DecayRunner.archiveClause`. -/
def archSet (now finalConf : ℚ) (c : Clause) : Clause :=
  { c with valid_to := some now, confidence := finalConf,
           metadata := setKey c.metadata "archived_reason" "confidence_decay" }

/-- The SET clause of a bare confidence UPDATE. -/
def confSet (v : ℚ) (c : Clause) : Clause := { c with confidence := v }

/-- DecayRunner.archiveClause: sets valid_to = now, persists the final
confidence, marks metadata archived_reason, then re-reads the row and
logs (its now-updated confidence, finalConfidence, archived_decay). -/
def DecayRunner.archiveClause (db : DB) (now : ℚ) (id : Nat) (finalConf : ℚ) : DB :=
  let db1 := db.updateClause id (archSet now finalConf)
  match db1.findClause id with
  | some c => db1.logDecay id c.confidence finalConf "archived_decay"
  | none => db1

/-- DecayRunner.applyDecay: persists the decayed confidence and logs a
scheduled_decay row. -/
def DecayRunner.applyDecay (db : DB) (id : Nat) (oldConf newConf : ℚ) : DB :=
  (db.updateClause id (confSet newConf)).logDecay
    id oldConf newConf "scheduled_decay"

/-- The batch query of `DecayRunner.run`: active clauses whose confidence
is strictly above the configured floor. -/
def decayTargets (cfg : DecayConfig) (db : DB) : List Clause :=
  db.clauses.filter (fun c =>
    c.valid_to = none && decide (cfg.minConfidence < c.confidence))

/-- One iteration of the decay loop.  `logDiv r` stands for the divisor
`1 + Math.log(r + 1)`; the decay formula is otherwise verbatim:
`time_factor = max 0 (now - last_accessed) / 30`,
`new_confidence = max 0 (confidence - confidence * (decay_rate / logDiv) * time_factor)`;
archive when it falls below the floor, decay when the change exceeds
0.001, and in dry-run mode count but never write. -/
def DecayRunner.runStep (cfg : DecayConfig) (logDiv : Nat → ℚ) (now : ℚ)
    (dryRun : Bool) (acc : DecayReport × DB) (c : Clause) : DecayReport × DB :=
  let report := acc.1
  let db := acc.2
  let daysSinceAccess := max 0 (now - c.last_accessed)
  let timeFactor := daysSinceAccess / 30
  let effectiveDecayRate := c.decay_rate / logDiv c.reinforcement_count
  let decayAmount := c.confidence * effectiveDecayRate * timeFactor
  let newConfidence := max 0 (c.confidence - decayAmount)
  let report1 := { report with processed := report.processed + 1 }
  if newConfidence < cfg.minConfidence then
    ({ report1 with archived := report1.archived + 1 },
     if dryRun then db else DecayRunner.archiveClause db now c.id newConfidence)
  else if newConfidence < c.confidence - 0.001 then
    ({ report1 with decayed := report1.decayed + 1 },
     if dryRun then db else DecayRunner.applyDecay db c.id c.confidence newConfidence)
  else (report1, db)

/-- DecayRunner.run: no-op when disabled and not a dry run; otherwise
fetches the targets up-front (db.all), folds the decay loop over them,
and finally stamps the last_decay_run metadata unless dry-running. -/
def DecayRunner.run (cfg : DecayConfig) (logDiv : Nat → ℚ) (db : DB) (now : ℚ)
    (dryRun : Bool) : DecayReport × DB :=
  if !cfg.enabled && !dryRun then (⟨0, 0, 0, 0⟩, db)
  else
    let targets := decayTargets cfg db
    let acc := targets.foldl (DecayRunner.runStep cfg logDiv now dryRun) (⟨0, 0, 0, 0⟩, db)
    if dryRun then acc else (acc.1, acc.2.setMeta "last_decay_run" (toString now))

/-! ### Claim C5 -/

theorem DecayRunner.runStep_dryRun_db (cfg : DecayConfig) (logDiv : Nat → ℚ)
    (now : ℚ) (acc : DecayReport × DB) (c : Clause) :
    (DecayRunner.runStep cfg logDiv now true acc c).2 = acc.2 := by
  simp only [DecayRunner.runStep, if_true]
  split
  · rfl
  · split <;> rfl

/-- Claim C5: a dry run is a pure read.  For every configuration, decay
divisor, database state and current time, `run(dryRun=true)` performs the
full computation and reporting but returns the database completely
unchanged: no clause row, no decay_log or access_log row, and no metadata
value differs. -/
theorem decay_dry_run_mutates_nothing (cfg : DecayConfig) (logDiv : Nat → ℚ)
    (db : DB) (now : ℚ) :
    (DecayRunner.run cfg logDiv db now true).2 = db := by
  have hfold : ∀ (l : List Clause) (acc : DecayReport × DB),
      (l.foldl (DecayRunner.runStep cfg logDiv now true) acc).2 = acc.2 := by
    intro l
    induction l with
    | nil => intro acc; rfl
    | cons c cs ih =>
        intro acc
        rw [List.foldl_cons, ih, DecayRunner.runStep_dryRun_db]
  simp only [DecayRunner.run, Bool.not_true, Bool.and_false, Bool.false_eq_true,
    if_false, if_true]
  exact hfold _ _

/-! ### Claim C4 -/

/-- The decay configuration of the spec scenario: minConfidence 0.1. -/
def c4Cfg : DecayConfig := { enabled := true, defaultRate := 0.001, minConfidence := 1/10 }

/-- The scenario clause: active, confidence 0.15, decay_rate 0.05,
reinforcement_count 0, last accessed at time 0. -/
def c4Clause : Clause :=
  { id := 0, type := "fact", subject := "s", predicate := "p", object := "o",
    natural_form := "n", valid_from := 0, valid_to := none, recorded_at := 0,
    confidence := 3/20, decay_rate := 1/20, reinforcement_count := 0,
    source_id := "src", extraction_method := "manual", last_accessed := 0,
    access_count := 0, tags := [], metadata := [] }

/-- A store holding only the scenario clause. -/
def c4DB : DB :=
  { clauses := [c4Clause], conflicts := [], decay_log := [], access_log := [],
    metadata := [], nextId := 1 }

/-- Claim C4 counterexample: running the batch 90 days after last access
(`logDiv` instantiated at the only occurring reinforcement count, where
1 + ln(0 + 1) = 1) does NOT archive the clause: new confidence
0.15 - 0.15 * 0.05 * 3 = 0.1275 is not below the floor 0.1, so the clause
is decayed, stays active, and the report counts archived = 0. -/
theorem decay_scenario_not_archived :
    (DecayRunner.run c4Cfg (fun _ => 1) c4DB 90 false).1.archived = 0 ∧
    (DecayRunner.run c4Cfg (fun _ => 1) c4DB 90 false).2.clauses.map
      (fun c => (c.valid_to, c.confidence)) = [(none, 51/400)] := by
  constructor <;>
    norm_num [DecayRunner.run, decayTargets, DecayRunner.runStep,
      DecayRunner.applyDecay, confSet, archSet, DB.updateClause, DB.logDecay,
      DB.setMeta, c4Cfg, c4Clause, c4DB, List.filter_cons]

/-- Claim C4 (amended): on the scenario clause (confidence 0.15,
decay_rate 0.05, last access 90 days ago, reinforcement_count 0,
minConfidence 0.1), `run(dryRun=false)` DECAYS the clause instead of
archiving it: 0.15 - 0.15*0.05*(90/30) = 0.1275 is still at or above the
0.1 floor, so valid_to stays null, the persisted confidence becomes
0.1275, a scheduled_decay row is logged, and the report counts it in
decayed (archived = 0). -/
theorem decay_scenario_decays (logDiv : Nat → ℚ) (hlog : logDiv 0 = 1) :
    (DecayRunner.run c4Cfg logDiv c4DB 90 false).1 = ⟨1, 1, 0, 0⟩ ∧
    (DecayRunner.run c4Cfg logDiv c4DB 90 false).2.clauses =
      [{ c4Clause with confidence := 51/400 }] ∧
    (DecayRunner.run c4Cfg logDiv c4DB 90 false).2.decay_log =
      [⟨0, 3/20, 51/400, "scheduled_decay"⟩] := by
  refine ⟨?_, ?_, ?_⟩ <;>
    norm_num [DecayRunner.run, decayTargets, DecayRunner.runStep,
      DecayRunner.applyDecay, confSet, archSet, DB.updateClause, DB.logDecay,
      DB.setMeta, c4Cfg, c4Clause, c4DB, List.filter_cons, hlog]

/-- Claim C4 witness: the amended theorem at the concrete divisor that the
source formula takes at reinforcement_count 0. -/
theorem decay_scenario_decays_witness :
    (DecayRunner.run c4Cfg (fun _ => 1) c4DB 90 false).1 = ⟨1, 1, 0, 0⟩ ∧
    (DecayRunner.run c4Cfg (fun _ => 1) c4DB 90 false).2.clauses =
      [{ c4Clause with confidence := 51/400 }] ∧
    (DecayRunner.run c4Cfg (fun _ => 1) c4DB 90 false).2.decay_log =
      [⟨0, 3/20, 51/400, "scheduled_decay"⟩] :=
  decay_scenario_decays (fun _ => 1) rfl

/-! ### Claim C10 -/

/-- DecayRunner.adjustConfidence: clamps the target to [0,1], persists it,
logs the change under the given reason, and — when the clamped value lies
below the configured floor — archives the clause in the same call.
`none` models the thrown Clause-not-found error. -/
def DecayRunner.adjustConfidence (cfg : DecayConfig) (db : DB) (now : ℚ)
    (id : Nat) (newConfidence : ℚ) (reason : String) : Option DB :=
  match db.findClause id with
  | none => none
  | some clause =>
      let clamped := max 0 (min 1 newConfidence)
      let db1 := db.updateClause id (confSet clamped)
      let db2 := db1.logDecay id clause.confidence clamped reason
      if clamped < cfg.minConfidence then
        some (DecayRunner.archiveClause db2 now id clamped)
      else some db2

theorem find?_setKey_map (m : List (String × String)) (k v : String)
    (h : m.any (fun p => p.1 = k) = true) :
    (m.map (fun p => if p.1 = k then (k, v) else p)).find? (fun p => p.1 = k) =
      some (k, v) := by
  induction m with
  | nil => simp at h
  | cons p ps ih =>
      by_cases hp : p.1 = k
      · simp [List.find?_cons, hp]
      · have h2 : ps.any (fun q => q.1 = k) = true := by
          simpa [List.any_cons, hp] using h
        simp [List.find?_cons, hp, ih h2]

theorem getKey_setKey (m : List (String × String)) (k v : String) :
    getKey (setKey m k v) k = some v := by
  by_cases hany : m.any (fun p => p.1 = k)
  · simp only [setKey, if_pos hany, getKey]
    rw [find?_setKey_map m k v hany]
    rfl
  · simp only [setKey, if_neg hany, getKey]
    have hnone : m.find? (fun p => p.1 = k) = none := by
      rw [List.find?_eq_none]
      intro p hp
      by_contra hcon
      exact hany (List.any_eq_true.mpr ⟨p, hp, by simpa using hcon⟩)
    rw [List.find?_append, hnone]
    simp

theorem find?_id_map (l : List Clause) (id : Nat) (f : Clause → Clause)
    (hf : ∀ c, (f c).id = c.id) :
    (l.map (fun c => if c.id = id then f c else c)).find? (fun c => c.id = id) =
      (l.find? (fun c => c.id = id)).map (fun c => if c.id = id then f c else c) := by
  induction l with
  | nil => rfl
  | cons c cs ih =>
      by_cases hc : c.id = id
      · have h1 : (f c).id = id := (hf c).trans hc
        simp [List.find?_cons, hc, h1]
      · rw [List.map_cons, if_neg hc,
          List.find?_cons_of_neg _ (by simpa using hc),
          List.find?_cons_of_neg _ (by simpa using hc)]
        exact ih

theorem findClause_updateClause (db : DB) (id : Nat) (f : Clause → Clause)
    (hf : ∀ c, (f c).id = c.id) :
    (db.updateClause id f).findClause id =
      (db.findClause id).map (fun c => if c.id = id then f c else c) := by
  simp only [DB.findClause, DB.updateClause]
  exact find?_id_map db.clauses id f hf

theorem findClause_logDecay (db : DB) (cid : Nat) (p n : ℚ) (r : String) (id : Nat) :
    (db.logDecay cid p n r).findClause id = db.findClause id := rfl

theorem findClause_some_id {db : DB} {id : Nat} {c : Clause}
    (h : db.findClause id = some c) : c.id = id := by
  simp only [DB.findClause] at h
  simpa using List.find?_some h

/-- Claim C10: when the clamp of the requested confidence falls below the
configured floor, adjustConfidence persists the clamped value, logs it,
AND archives the clause in the same call: its valid_to is set to now,
its metadata records the archive reason, and two decay_log rows (the
manual adjustment and the archive) are appended. -/
theorem adjustConfidence_below_floor_archives (cfg : DecayConfig) (db : DB)
    (now : ℚ) (id : Nat) (target : ℚ) (reason : String) (c : Clause)
    (hfind : db.findClause id = some c)
    (hlow : max 0 (min 1 target) < cfg.minConfidence) :
    ∃ db', DecayRunner.adjustConfidence cfg db now id target reason = some db' ∧
      ∃ c', db'.findClause id = some c' ∧
        c'.confidence = max 0 (min 1 target) ∧ c'.valid_to = some now ∧
        getKey c'.metadata "archived_reason" = some "confidence_decay" ∧
        db'.decay_log.length = db.decay_log.length + 2 := by
  have hcid : c.id = id := findClause_some_id hfind
  simp only [DecayRunner.adjustConfidence, hfind, if_pos hlow]
  refine ⟨_, rfl, ?_⟩
  have h1 : ((db.updateClause id (confSet (max 0 (min 1 target)))).logDecay
        id c.confidence (max 0 (min 1 target)) reason).findClause id =
      some (confSet (max 0 (min 1 target)) c) := by
    rw [findClause_logDecay,
      findClause_updateClause db id (confSet (max 0 (min 1 target))) (fun x => rfl),
      hfind, Option.map_some', if_pos hcid]
  set dbl := (db.updateClause id (confSet (max 0 (min 1 target)))).logDecay
        id c.confidence (max 0 (min 1 target)) reason with hdbl
  have h2 : (dbl.updateClause id (archSet now (max 0 (min 1 target)))).findClause id =
      some (archSet now (max 0 (min 1 target)) (confSet (max 0 (min 1 target)) c)) := by
    rw [findClause_updateClause dbl id (archSet now (max 0 (min 1 target))) (fun x => rfl),
      h1, Option.map_some']
    have : (confSet (max 0 (min 1 target)) c).id = id := hcid
    rw [if_pos this]
  refine ⟨archSet now (max 0 (min 1 target)) (confSet (max 0 (min 1 target)) c), ?_,
    rfl, rfl, getKey_setKey _ _ _, ?_⟩
  · simp only [DecayRunner.archiveClause, h2, findClause_logDecay]
  · simp only [DecayRunner.archiveClause, h2]
    simp [DB.logDecay, DB.updateClause, hdbl]

/-- A clause for the C10 witness store. -/
def c10Clause : Clause :=
  { id := 0, type := "fact", subject := "s", predicate := "p", object := "o",
    natural_form := "n", valid_from := 0, valid_to := none, recorded_at := 0,
    confidence := 1/2, decay_rate := 0, reinforcement_count := 0,
    source_id := "src", extraction_method := "manual", last_accessed := 0,
    access_count := 0, tags := [], metadata := [] }

/-- The C10 witness store. -/
def c10DB : DB :=
  { clauses := [c10Clause], conflicts := [], decay_log := [], access_log := [],
    metadata := [], nextId := 1 }

/-- Claim C10 witness: adjusting the 0.5-confidence clause to 0.05 (below
the 0.1 floor) archives it in the same call. -/
theorem adjustConfidence_below_floor_archives_witness :
    ∃ db', DecayRunner.adjustConfidence {} c10DB 3 0 (1/20) "manual_adjustment" =
        some db' ∧
      ∃ c', db'.findClause 0 = some c' ∧
        c'.confidence = max 0 (min 1 (1/20)) ∧ c'.valid_to = some 3 ∧
        getKey c'.metadata "archived_reason" = some "confidence_decay" ∧
        db'.decay_log.length = c10DB.decay_log.length + 2 :=
  adjustConfidence_below_floor_archives {} c10DB 3 0 (1/20) "manual_adjustment"
    c10Clause rfl (by norm_num)

/-! ### Claim C9 -/

theorem mem_updateClause_elim {d : DB} {id : Nat} {f : Clause → Clause} {x : Clause}
    (hx : x ∈ (d.updateClause id f).clauses) :
    ∃ y ∈ d.clauses, x = if y.id = id then f y else y := by
  simp only [DB.updateClause, List.mem_map] at hx
  obtain ⟨y, hy, rfl⟩ := hx
  exact ⟨y, hy, rfl⟩

theorem archiveClause_clauses (d : DB) (now : ℚ) (id : Nat) (v : ℚ) :
    (DecayRunner.archiveClause d now id v).clauses =
      (d.updateClause id (archSet now v)).clauses := by
  simp only [DecayRunner.archiveClause]
  split <;> rfl

/-- Claim C9: decay is monotone.  With a positive decay divisor (as
1 + ln(r+1) is for r ≥ 0) and distinct row ids, every clause present
after `run(dryRun=false)` descends from a clause of the starting state
with the same id, and — whenever that original clause had decay_rate ≥ 0
and confidence ≥ 0 (the storage CHECK guarantees both) — the stored
confidence after the run is at most the stored confidence before it. -/
theorem decay_never_increases_confidence
    (cfg : DecayConfig) (logDiv : Nat → ℚ) (db : DB) (now : ℚ) (c' : Clause)
    (hlog : ∀ r, 0 < logDiv r)
    (hids : (db.clauses.map (fun c => c.id)).Nodup)
    (hc' : c' ∈ (DecayRunner.run cfg logDiv db now false).2.clauses) :
    ∃ c ∈ db.clauses, c'.id = c.id ∧
      (0 ≤ c.decay_rate → 0 ≤ c.confidence → c'.confidence ≤ c.confidence) := by
  have hinj : ∀ a ∈ db.clauses, ∀ b ∈ db.clauses, a.id = b.id → a = b := by
    intro a ha b hb hab
    exact List.inj_on_of_nodup_map hids ha hb hab
  have hstep : ∀ (t : Clause), t ∈ db.clauses → ∀ (acc : DecayReport × DB),
      (∀ x ∈ acc.2.clauses, ∃ c ∈ db.clauses, x.id = c.id ∧
        (0 ≤ c.decay_rate → 0 ≤ c.confidence → x.confidence ≤ c.confidence)) →
      (∀ x ∈ (DecayRunner.runStep cfg logDiv now false acc t).2.clauses,
        ∃ c ∈ db.clauses, x.id = c.id ∧
          (0 ≤ c.decay_rate → 0 ≤ c.confidence → x.confidence ≤ c.confidence)) := by
    intro t ht acc hP
    have harith : 0 ≤ t.decay_rate → 0 ≤ t.confidence →
        max 0 (t.confidence - t.confidence *
          (t.decay_rate / logDiv t.reinforcement_count) *
          (max 0 (now - t.last_accessed) / 30)) ≤ t.confidence := by
      intro hr hcf
      refine max_le hcf ?_
      have hnn : 0 ≤ t.confidence *
          (t.decay_rate / logDiv t.reinforcement_count) *
          (max 0 (now - t.last_accessed) / 30) :=
        mul_nonneg (mul_nonneg hcf (div_nonneg hr (le_of_lt (hlog _))))
          (div_nonneg (le_max_left 0 _) (by norm_num))
      linarith
    have hupd : ∀ (d : DB) (f : Clause → Clause),
        (∀ x, (f x).id = x.id) →
        (∀ x, (f x).confidence = max 0 (t.confidence - t.confidence *
          (t.decay_rate / logDiv t.reinforcement_count) *
          (max 0 (now - t.last_accessed) / 30))) →
        (∀ x ∈ d.clauses, ∃ c ∈ db.clauses, x.id = c.id ∧
          (0 ≤ c.decay_rate → 0 ≤ c.confidence → x.confidence ≤ c.confidence)) →
        (∀ x ∈ (d.updateClause t.id f).clauses, ∃ c ∈ db.clauses, x.id = c.id ∧
          (0 ≤ c.decay_rate → 0 ≤ c.confidence → x.confidence ≤ c.confidence)) := by
      intro d f hfid hfconf hPd x hx
      obtain ⟨y, hy, rfl⟩ := mem_updateClause_elim hx
      by_cases hyid : y.id = t.id
      · rw [if_pos hyid]
        obtain ⟨c, hcdb, hidc, _⟩ := hPd y hy
        have hct : c = t := hinj c hcdb t ht (by rw [← hidc, hyid])
        refine ⟨c, hcdb, by rw [hfid y, hidc], ?_⟩
        intro hr hcf
        rw [hfconf y]
        subst hct
        exact harith hr hcf
      · rw [if_neg hyid]
        exact hPd y hy
    simp only [DecayRunner.runStep]
    split
    · simpa only [Bool.false_eq_true, if_false, archiveClause_clauses] using
        hupd acc.2 (archSet now _) (fun x => rfl) (fun x => rfl) (hP ·)
    · split
      · simpa only [Bool.false_eq_true, if_false, DecayRunner.applyDecay] using
          hupd acc.2 (confSet _) (fun x => rfl) (fun x => rfl) (hP ·)
      · exact hP
  have hfold : ∀ (l : List Clause), (∀ t ∈ l, t ∈ db.clauses) →
      ∀ (acc : DecayReport × DB),
      (∀ x ∈ acc.2.clauses, ∃ c ∈ db.clauses, x.id = c.id ∧
        (0 ≤ c.decay_rate → 0 ≤ c.confidence → x.confidence ≤ c.confidence)) →
      (∀ x ∈ (l.foldl (DecayRunner.runStep cfg logDiv now false) acc).2.clauses,
        ∃ c ∈ db.clauses, x.id = c.id ∧
          (0 ≤ c.decay_rate → 0 ≤ c.confidence → x.confidence ≤ c.confidence)) := by
    intro l
    induction l with
    | nil => intro _ acc hP; simpa using hP
    | cons t ts ih =>
        intro hsub acc hP
        rw [List.foldl_cons]
        exact ih (fun u hu => hsub u (List.mem_cons_of_mem _ hu)) _
          (hstep t (hsub t (List.mem_cons_self _ _)) acc hP)
  have hbase : ∀ x ∈ db.clauses, ∃ c ∈ db.clauses, x.id = c.id ∧
      (0 ≤ c.decay_rate → 0 ≤ c.confidence → x.confidence ≤ c.confidence) :=
    fun x hx => ⟨x, hx, rfl, fun _ _ => le_refl _⟩
  cases henb : cfg.enabled with
  | false =>
      simp only [DecayRunner.run, henb] at hc'
      simp only [Bool.not_false, Bool.not_true, Bool.and_true, if_true] at hc'
      exact ⟨c', hc', rfl, fun _ _ => le_refl _⟩
  | true =>
      simp only [DecayRunner.run, henb, Bool.not_true, Bool.not_false,
        Bool.false_and, Bool.false_eq_true, if_false, Bool.and_true,
        DB.setMeta] at hc'
      exact hfold (decayTargets cfg db)
        (fun t ht => List.mem_of_mem_filter ht) (⟨0, 0, 0, 0⟩, db) hbase c' hc'

/-- A stable clause for the C9 witness: decay_rate 0, so a run leaves it
unchanged. -/
def c9Clause : Clause :=
  { id := 0, type := "fact", subject := "s", predicate := "p", object := "o",
    natural_form := "n", valid_from := 0, valid_to := none, recorded_at := 0,
    confidence := 1/2, decay_rate := 0, reinforcement_count := 0,
    source_id := "src", extraction_method := "manual", last_accessed := 0,
    access_count := 0, tags := [], metadata := [] }

/-- The C9 witness store. -/
def c9DB : DB :=
  { clauses := [c9Clause], conflicts := [], decay_log := [], access_log := [],
    metadata := [], nextId := 1 }

/-- Claim C9 witness: the monotonicity theorem on a one-clause store. -/
theorem decay_never_increases_confidence_witness :
    ∃ c ∈ c9DB.clauses, c9Clause.id = c.id ∧
      (0 ≤ c.decay_rate → 0 ≤ c.confidence →
        c9Clause.confidence ≤ c.confidence) :=
  decay_never_increases_confidence {} (fun _ => 1) c9DB 0 c9Clause
    (fun _ => by norm_num) (by simp [c9DB])
    (by norm_num [DecayRunner.run, decayTargets, DecayRunner.runStep, DB.setMeta,
      c9DB, c9Clause, List.filter_cons])

/-! ### Claim C7 -/

/-- Claim C7 (amended): processing a candidate that shares (subject,
predicate) with exactly one existing active clause OF CONFIDENCE ABOVE
0.3 (the processNewClause query filter), where the predicate is in
neither the singleton nor the multi-value list and the objects differ
case-insensitively, inserts the candidate as a new active clause AND
appends exactly one pending Conflict of type contradiction referencing
both clause ids and naming the two differing objects.  (When every such
existing clause has confidence at most 0.3 the candidate is inserted
with no Conflict; see the counterexample.) -/
theorem processNewClause_contradiction_conflict
    (db : DB) (now : ℚ) (input : ClauseInput) (old : Clause)
    (hex : pncExisting db input = [old])
    (hsing : SINGLETON_PREDICATES.contains old.predicate = false)
    (hmulti : MULTI_VALUE_PREDICATES.contains old.predicate = false)
    (hobj : lowerStr old.object ≠ lowerStr input.object)
    (hconf0 : 0 ≤ input.confidence.getD 0.8)
    (hconf1 : input.confidence.getD 0.8 ≤ 1)
    (hrate : 0 ≤ input.decay_rate.getD ((DEFAULT_DECAY_RATES input.type).getD 0.001))
    (htype : clauseTypes.contains input.type = true) :
    ∃ res db' newC conf,
      ClauseStore.processNewClause db now input = some (res, db') ∧
      res.action = .conflict ∧ res.clause = some newC ∧ res.conflict = some conf ∧
      db'.clauses = db.clauses ++ [newC] ∧ newC.valid_to = none ∧
      newC.object = input.object ∧
      db'.conflicts = db.conflicts ++ [conf] ∧
      conf.conflict_type = "contradiction" ∧ conf.status = "pending" ∧
      conf.clause_a_id = old.id ∧ conf.clause_b_id = newC.id ∧
      conf.description = "Conflicting values for " ++ old.subject ++ "." ++
        old.predicate ++ ": \"" ++ old.object ++ "\" vs \"" ++ input.object ++ "\"" := by
  have hrel : ClauseStore.analyzeRelation old input = .contradiction := by
    have hs : old.predicate ∉ SINGLETON_PREDICATES := by simpa using hsing
    have hm : old.predicate ∉ MULTI_VALUE_PREDICATES := by simpa using hmulti
    simp [ClauseStore.analyzeRelation, hobj, hs, hm]
  have hchk : clauseCheckOk
      { id := db.nextId, type := input.type, subject := input.subject,
        predicate := input.predicate, object := input.object,
        natural_form := input.natural_form, valid_from := input.valid_from.getD now,
        valid_to := none, recorded_at := now,
        confidence := input.confidence.getD 0.8,
        decay_rate := input.decay_rate.getD ((DEFAULT_DECAY_RATES input.type).getD 0.001),
        reinforcement_count := 0, source_id := input.source_id,
        extraction_method := input.extraction_method, last_accessed := now,
        access_count := 0, tags := input.tags, metadata := input.metadata } = true := by
    simp only [clauseCheckOk, Bool.and_eq_true, decide_eq_true_eq]
    exact ⟨⟨⟨hconf0, hconf1⟩, hrate⟩, htype⟩
  simp only [ClauseStore.processNewClause, hex, hrel, ClauseStore.create,
    if_pos hchk, Option.map_some']
  refine ⟨_, _, _, _, rfl, rfl, rfl, rfl, ?_, rfl, rfl, ?_, rfl, rfl, rfl, rfl, rfl⟩
  · simp [ClauseStore.createConflict, DB.setMeta]
  · simp [ClauseStore.createConflict, DB.setMeta]

/-- An active clause on a predicate outside both classification lists. -/
def c7Old : Clause :=
  { id := 0, type := "fact", subject := "user", predicate := "admires",
    object := "Curie", natural_form := "User admires Curie", valid_from := 0,
    valid_to := none, recorded_at := 0, confidence := 4/5, decay_rate := 0.0005,
    reinforcement_count := 0, source_id := "src", extraction_method := "manual",
    last_accessed := 0, access_count := 0, tags := [], metadata := [] }

/-- The C7 witness store. -/
def c7DB : DB :=
  { clauses := [c7Old], conflicts := [], decay_log := [], access_log := [],
    metadata := [], nextId := 1 }

/-- The contradicting candidate: same subject and predicate, different
object. -/
def c7In : ClauseInput :=
  { type := "fact", subject := "user", predicate := "admires",
    object := "Noether", natural_form := "User admires Noether",
    confidence := some (9/10), source_id := "src" }

/-- Claim C7 witness: the contradiction theorem applied to the one-clause
store and a differing candidate. -/
theorem processNewClause_contradiction_conflict_witness :
    ∃ res db' newC conf,
      ClauseStore.processNewClause c7DB 1 c7In = some (res, db') ∧
      res.action = .conflict ∧ res.clause = some newC ∧ res.conflict = some conf ∧
      db'.clauses = c7DB.clauses ++ [newC] ∧ newC.valid_to = none ∧
      newC.object = c7In.object ∧
      db'.conflicts = c7DB.conflicts ++ [conf] ∧
      conf.conflict_type = "contradiction" ∧ conf.status = "pending" ∧
      conf.clause_a_id = c7Old.id ∧ conf.clause_b_id = newC.id ∧
      conf.description = "Conflicting values for " ++ c7Old.subject ++ "." ++
        c7Old.predicate ++ ": \"" ++ c7Old.object ++ "\" vs \"" ++ c7In.object ++ "\"" :=
  processNewClause_contradiction_conflict c7DB 1 c7In c7Old
    (by norm_num [pncExisting, c7DB, c7Old, c7In, List.filter_cons])
    (by decide) (by decide) (by decide)
    (by norm_num [c7In]) (by norm_num [c7In])
    (by norm_num [c7In, DEFAULT_DECAY_RATES]) (by decide)

/-- The same contradicting situation, but the existing active clause has
confidence 0.25, at most the 0.3 query cutoff. -/
def c7LowOld : Clause := { c7Old with confidence := 1/4 }

/-- A store holding only that low-confidence active clause. -/
def c7LowDB : DB :=
  { clauses := [c7LowOld], conflicts := [], decay_log := [], access_log := [],
    metadata := [], nextId := 1 }

/-- Claim C7 counterexample: the claim as frozen is false for a reachable
state.  The store holds an ACTIVE clause sharing the candidate subject
and predicate, the predicate is in neither classification list, and the
objects differ case-insensitively — yet, because that clause has
confidence 0.25 and the processNewClause query filters on
confidence > 0.3, the candidate is inserted with action insert and NO
pending Conflict is produced (the conflicts table stays empty). -/
theorem processNewClause_no_conflict_at_low_confidence :
    c7LowOld.valid_to = none ∧
    c7LowOld.subject = c7In.subject ∧ c7LowOld.predicate = c7In.predicate ∧
    lowerStr c7LowOld.object ≠ lowerStr c7In.object ∧
    SINGLETON_PREDICATES.contains c7LowOld.predicate = false ∧
    MULTI_VALUE_PREDICATES.contains c7LowOld.predicate = false ∧
    (ClauseStore.processNewClause c7LowDB 1 c7In).map
      (fun p => (p.1.action, p.1.conflict.isSome, p.2.conflicts.length)) =
      some (.insert, false, 0) := by
  refine ⟨rfl, rfl, rfl, by decide, by decide, by decide, ?_⟩
  norm_num [ClauseStore.processNewClause, pncExisting, ClauseStore.create,
    clauseCheckOk, clauseTypes, DEFAULT_DECAY_RATES, c7LowDB, c7LowOld, c7Old,
    c7In, DB.getMeta, DB.setMeta, getKey, setKey, List.filter_cons]

/-! ### Deduplication (ClauseStore.findDuplicate) -/

/-- The `DeduplicationConfig` shape with its defaults. -/
structure DeduplicationConfig where
  enabled : Bool := true
  similarityThreshold : ℚ := 0.85
  useContentHash : Bool := true
  useFuzzyMatch : Bool := true
  onDuplicate : String := "reinforce"
  deriving Repr

/-- Split a character list at separator characters (the pieces between
them, empties included — they are dropped by the length filter below,
matching the regex split in the source). -/
def splitChars (sep : Char → Bool) : List Char → List Char → List String
  | [], acc => [⟨acc.reverse⟩]
  | c :: cs, acc =>
      if sep c then ⟨acc.reverse⟩ :: splitChars sep cs []
      else splitChars sep cs (c :: acc)

/-- The token set of `calculateSimilarity`:
`new Set(s.toLowerCase().split(/\s+/).filter(w => w.length > 2))`. -/
def simWords (s : String) : List String :=
  ((splitChars Char.isWhitespace (lowerStr s).data []).filter
    (fun w => w.length > 2)).dedup

/-- ClauseStore.calculateSimilarity: Jaccard index of the two token sets,
with the source's two degenerate cases. -/
def calculateSimilarity (a b : String) : ℚ :=
  let wordsA := simWords a
  let wordsB := simWords b
  if wordsA.length = 0 ∧ wordsB.length = 0 then 1
  else if wordsA.length = 0 ∨ wordsB.length = 0 then 0
  else
    let inter := wordsA.filter (fun w => wordsB.contains w)
    let union := (wordsA ++ wordsB).dedup
    (inter.length : ℚ) / (union.length : ℚ)

/-- The match kind reported by findDuplicate. -/
inductive MatchType where
  | exact | hash | fuzzy | noMatch
  deriving Repr, DecidableEq

/-- The result shape of findDuplicate. -/
structure DupResult where
  found : Bool
  clause : Option Clause
  similarity : ℚ
  matchType : MatchType
  deriving Repr

/-- The for-loop over fuzzy candidates: first clause whose natural_form
similarity reaches the threshold, together with that similarity. -/
def fuzzyScan (thr : ℚ) (nf : String) : List Clause → Option (Clause × ℚ)
  | [] => none
  | c :: rest =>
      let sim := calculateSimilarity c.natural_form nf
      if thr ≤ sim then some (c, sim) else fuzzyScan thr nf rest

/-- The exact-SPO query of findDuplicate (active rows with identical
subject, predicate and object), empty when hash dedup is disabled. -/
def exactList (cfg : DeduplicationConfig) (db : DB) (input : ClauseInput) : List Clause :=
  if cfg.useContentHash then
    db.clauses.filter (fun c => c.valid_to = none && c.subject = input.subject &&
      c.predicate = input.predicate && c.object = input.object)
  else []

/-- The first fuzzy phase query: active rows sharing subject and
predicate with confidence above 0.3. -/
def fuzzyCandidates (db : DB) (input : ClauseInput) : List Clause :=
  db.clauses.filter (fun c => c.valid_to = none && c.subject = input.subject &&
    c.predicate = input.predicate && decide ((0.3:ℚ) < c.confidence))

/-- The second fuzzy phase query: the first five active rows the FTS
index matches against the (index-internal) query derived from the
candidate natural_form; the index itself is the oracle `ftsMatch`. -/
def ftsCandidates (db : DB) (ftsMatch : Clause → Bool) : List Clause :=
  (db.clauses.filter (fun c => ftsMatch c && c.valid_to = none)).take 5

/-- ClauseStore.findDuplicate: disabled short-circuit, then exact SPO
match (when hash dedup is on), then the two fuzzy phases (when fuzzy
matching is on): same-(subject,predicate) candidates first, then an
FTS-wide scan over up to five active rows. -/
def ClauseStore.findDuplicate (cfg : DeduplicationConfig) (db : DB)
    (input : ClauseInput) (ftsMatch : Clause → Bool) : DupResult :=
  if !cfg.enabled then ⟨false, none, 0, .noMatch⟩
  else match exactList cfg db input with
  | e :: _ => ⟨true, some e, 1, .exact⟩
  | [] =>
      if cfg.useFuzzyMatch then
        match fuzzyScan cfg.similarityThreshold input.natural_form
            (fuzzyCandidates db input) with
        | some p => ⟨true, some p.1, p.2, .fuzzy⟩
        | none =>
            match fuzzyScan cfg.similarityThreshold input.natural_form
                (ftsCandidates db ftsMatch) with
            | some p => ⟨true, some p.1, p.2, .fuzzy⟩
            | none => ⟨false, none, 0, .noMatch⟩
      else ⟨false, none, 0, .noMatch⟩

theorem fuzzyScan_some {thr : ℚ} {nf : String} {l : List Clause}
    {c : Clause} {s : ℚ} (h : fuzzyScan thr nf l = some (c, s)) :
    c ∈ l ∧ s = calculateSimilarity c.natural_form nf ∧ thr ≤ s := by
  induction l with
  | nil => exact absurd h (by simp [fuzzyScan])
  | cons x xs ih =>
      simp only [fuzzyScan] at h
      split at h
      · simp only [Option.some.injEq, Prod.mk.injEq] at h
        obtain ⟨rfl, rfl⟩ := h
        exact ⟨List.mem_cons_self _ _, rfl, by assumption⟩
      · obtain ⟨hm, hs, ht⟩ := ih h
        exact ⟨List.mem_cons_of_mem _ hm, hs, ht⟩

/-! ### Claim C6 -/

/-- An active clause whose subject and predicate differ from the C6
candidate but whose natural_form matches it exactly. -/
def c6Existing : Clause :=
  { id := 0, type := "fact", subject := "bob", predicate := "works_at",
    object := "acme", natural_form := "shares flat overlooking harbour",
    valid_from := 0, valid_to := none, recorded_at := 0, confidence := 4/5,
    decay_rate := 0.0005, reinforcement_count := 0, source_id := "src",
    extraction_method := "manual", last_accessed := 0, access_count := 0,
    tags := [], metadata := [] }

/-- The C6 store. -/
def c6DB : DB :=
  { clauses := [c6Existing], conflicts := [], decay_log := [], access_log := [],
    metadata := [], nextId := 1 }

/-- A candidate with subject alice and predicate lives_in whose
natural_form coincides with the bob clause. -/
def c6In : ClauseInput :=
  { type := "fact", subject := "alice", predicate := "lives_in",
    object := "flat", natural_form := "shares flat overlooking harbour" }

theorem c6_eval : ClauseStore.findDuplicate {} c6DB c6In (fun _ => true) =
    ⟨true, some c6Existing, 1, .fuzzy⟩ := by
  have hsim : calculateSimilarity "shares flat overlooking harbour"
      "shares flat overlooking harbour" = 1 := by
    have hw : simWords "shares flat overlooking harbour" =
        ["shares", "flat", "overlooking", "harbour"] := by decide
    have hd : (["shares", "flat", "overlooking", "harbour"] :
        List String).dedup.length = 4 := by decide
    rw [calculateSimilarity, hw]
    norm_num [hd]
  norm_num [ClauseStore.findDuplicate, exactList, fuzzyCandidates, ftsCandidates,
    fuzzyScan, c6DB, c6In, c6Existing, List.filter_cons, hsim]
  simp +decide

/-- Claim C6 counterexample: findDuplicate reports a fuzzy match (with
the FTS oracle matching the row, as FTS5 does for identical
natural_forms) whose matched clause has subject bob and predicate
works_at while the candidate has subject alice and predicate lives_in —
refuting that every fuzzy match shares the candidate's (subject,
predicate). -/
theorem findDuplicate_fuzzy_wrong_subject :
    (ClauseStore.findDuplicate {} c6DB c6In (fun _ => true)).matchType = .fuzzy ∧
    (ClauseStore.findDuplicate {} c6DB c6In (fun _ => true)).clause.map
      (fun c => (c.subject, c.predicate)) = some ("bob", "works_at") ∧
    (c6In.subject, c6In.predicate) = ("alice", "lives_in") ∧
    ("bob" : String) ≠ "alice" := by
  rw [c6_eval]
  refine ⟨rfl, ?_, rfl, by decide⟩
  simp [c6Existing]

/-- Claim C6 (amended): whenever findDuplicate reports a fuzzy match, the
matched clause is an ACTIVE clause of the store and the Jaccard
similarity of the two natural_form token sets reaches the configured
threshold, and — with hash dedup enabled — no exact active
(subject, predicate, object) match exists (fuzzy is only attempted after
the exact check fails).  The matched clause shares the candidate's
(subject, predicate) only in the first fuzzy phase; the second,
FTS-backed phase can match an active clause with a different subject or
predicate (see the counterexample). -/
theorem findDuplicate_fuzzy_active_similar
    (cfg : DeduplicationConfig) (db : DB) (input : ClauseInput)
    (ftsMatch : Clause → Bool)
    (hfz : (ClauseStore.findDuplicate cfg db input ftsMatch).matchType = .fuzzy) :
    ∃ c, (ClauseStore.findDuplicate cfg db input ftsMatch).clause = some c ∧
      c ∈ db.clauses ∧ c.valid_to = none ∧
      (ClauseStore.findDuplicate cfg db input ftsMatch).similarity =
        calculateSimilarity c.natural_form input.natural_form ∧
      cfg.similarityThreshold ≤
        (ClauseStore.findDuplicate cfg db input ftsMatch).similarity ∧
      (cfg.useContentHash = true → ∀ e ∈ db.clauses, e.valid_to = none →
        e.subject = input.subject → e.predicate = input.predicate →
        e.object ≠ input.object) := by
  by_cases hen : cfg.enabled
  case neg => simp [ClauseStore.findDuplicate, hen] at hfz
  case pos =>
  cases hex : exactList cfg db input with
  | cons e es => simp [ClauseStore.findDuplicate, hen, hex] at hfz
  | nil =>
  by_cases hfm : cfg.useFuzzyMatch
  case neg => simp [ClauseStore.findDuplicate, hen, hex, hfm] at hfz
  case pos =>
  have hnoexact : cfg.useContentHash = true → ∀ e ∈ db.clauses, e.valid_to = none →
      e.subject = input.subject → e.predicate = input.predicate →
      e.object ≠ input.object := by
    intro hhash e he hv hs hp hob
    have hmem : e ∈ exactList cfg db input := by
      simp only [exactList, if_pos hhash, List.mem_filter]
      exact ⟨he, by simp [hv, hs, hp, hob]⟩
    rw [hex] at hmem
    exact absurd hmem (List.not_mem_nil e)
  cases hscan1 : fuzzyScan cfg.similarityThreshold input.natural_form
      (fuzzyCandidates db input) with
  | some p =>
      obtain ⟨c, s⟩ := p
      obtain ⟨hm, hs, ht⟩ := fuzzyScan_some hscan1
      have hres : ClauseStore.findDuplicate cfg db input ftsMatch =
          ⟨true, some c, s, .fuzzy⟩ := by
        simp [ClauseStore.findDuplicate, hen, hex, hfm, hscan1]
      have hmf := List.mem_filter.mp hm
      refine ⟨c, by rw [hres], hmf.1, ?_, by rw [hres]; exact hs,
        by rw [hres]; exact ht, hnoexact⟩
      have := hmf.2
      simp only [Bool.and_eq_true, decide_eq_true_eq] at this
      exact this.1.1.1
  | none =>
  cases hscan2 : fuzzyScan cfg.similarityThreshold input.natural_form
      (ftsCandidates db ftsMatch) with
  | some p =>
      obtain ⟨c, s⟩ := p
      obtain ⟨hm, hs, ht⟩ := fuzzyScan_some hscan2
      have hres : ClauseStore.findDuplicate cfg db input ftsMatch =
          ⟨true, some c, s, .fuzzy⟩ := by
        simp [ClauseStore.findDuplicate, hen, hex, hfm, hscan1, hscan2]
      have hm2 : c ∈ db.clauses.filter (fun c => ftsMatch c && c.valid_to = none) :=
        List.mem_of_mem_take hm
      have hmf := List.mem_filter.mp hm2
      refine ⟨c, by rw [hres], hmf.1, ?_, by rw [hres]; exact hs,
        by rw [hres]; exact ht, hnoexact⟩
      have := hmf.2
      simp only [Bool.and_eq_true, decide_eq_true_eq] at this
      exact this.2
  | none =>
      simp [ClauseStore.findDuplicate, hen, hex, hfm, hscan1, hscan2] at hfz

/-- Claim C6 witness: the amended theorem at the concrete FTS-phase fuzzy
match of the counterexample store. -/
theorem findDuplicate_fuzzy_active_similar_witness :
    ∃ c, (ClauseStore.findDuplicate {} c6DB c6In (fun _ => true)).clause = some c ∧
      c ∈ c6DB.clauses ∧ c.valid_to = none ∧
      (ClauseStore.findDuplicate {} c6DB c6In (fun _ => true)).similarity =
        calculateSimilarity c.natural_form c6In.natural_form ∧
      (({} : DeduplicationConfig)).similarityThreshold ≤
        (ClauseStore.findDuplicate {} c6DB c6In (fun _ => true)).similarity ∧
      ((({} : DeduplicationConfig)).useContentHash = true →
        ∀ e ∈ c6DB.clauses, e.valid_to = none →
        e.subject = c6In.subject → e.predicate = c6In.predicate →
        e.object ≠ c6In.object) :=
  findDuplicate_fuzzy_active_similar {} c6DB c6In (fun _ => true) (by rw [c6_eval])

/-! ### Retriever (retrieval module) -/

/-- The `RetrievalConfig` shape with the constructor defaults. -/
structure RetrievalConfig where
  semanticWeight : ℚ := 0.6
  keywordWeight : ℚ := 0.3
  recencyWeight : ℚ := 0.1
  defaultLimit : Nat := 20
  deriving Repr

/-- The `RetrievalOptions` shape with the defaults destructured inside
`retrieve`. -/
structure RetrievalOptions where
  types : Option (List String) := none
  minConfidence : ℚ := 0.5
  includeExpired : Bool := false
  limit : Option Nat := none
  boostRecent : Bool := false
  semanticWeight : Option ℚ := none
  keywordWeight : Option ℚ := none
  deriving Repr

/-- A clause together with its fused retrieval score. -/
structure ScoredClause where
  clause : Clause
  score : ℚ
  deriving Repr

/-- The retrievalMethod of a `RetrievalResult`. -/
inductive RetrievalMethod where
  | semantic | keyword | hybrid
  deriving Repr, DecidableEq

/-- The `RetrievalResult` shape. -/
structure RetrievalResult where
  clauses : List ScoredClause
  totalMatches : Nat
  retrievalMethod : RetrievalMethod
  deriving Repr

/-- Whether `query.trim()` is falsy: every character is whitespace. -/
def isBlank (q : String) : Bool := q.data.all Char.isWhitespace

/-- The optional `type IN (...)` filter (applied only when a non-empty
type list is supplied). -/
def typeOk : Option (List String) → Clause → Bool
  | none, _ => true
  | some ts, c => if ts.isEmpty then true else ts.contains c.type

/-- Substring membership on character lists (String.prototype.includes). -/
def subAux (needle : List Char) : List Char → Bool
  | [] => needle.isEmpty
  | c :: t => needle.isPrefixOf (c :: t) || subAux needle t

/-- hay.includes(needle). -/
def containsSub (hay needle : String) : Bool := subAux needle.data hay.data

/-- predicate.replace(/_/g, ' '). -/
def underscoreToSpace (s : String) : String :=
  ⟨s.data.map (fun c => if c = '_' then ' ' else c)⟩

/-- Ordering for the no-query branch:
ORDER BY confidence DESC, last_accessed DESC. -/
def byConfAccess (a b : Clause) : Bool :=
  if a.confidence = b.confidence then b.last_accessed ≤ a.last_accessed
  else b.confidence ≤ a.confidence

/-- Retriever.keywordSearch: the no-query branch ranks active clauses by
confidence and recency with score 1.0; the FTS branch keeps rows the text
index matches (`ftsOracle` gives the bm25 score, `none` = no match),
bounded by the confidence/type/expiry filters, ordered by the raw bm25
score ascending (more negative = better). -/
def Retriever.keywordSearch (db : DB) (ftsOracle : Clause → Option ℚ)
    (query : String) (types : Option (List String)) (minConfidence : ℚ)
    (includeExpired : Bool) (limit : Nat) : List (Clause × ℚ) :=
  if isBlank query then
    (((db.clauses.filter (fun c => decide (minConfidence ≤ c.confidence) &&
        (includeExpired || c.valid_to = none) && typeOk types c)).mergeSort
      byConfAccess).take limit).map (fun c => (c, (1 : ℚ)))
  else
    (((db.clauses.filterMap (fun c =>
        match ftsOracle c with
        | none => none
        | some sc =>
            if decide (minConfidence ≤ c.confidence) &&
                (includeExpired || c.valid_to = none) && typeOk types c
            then some (c, sc) else none)).mergeSort
      (fun a b => a.2 ≤ b.2)).take limit)

/-- The fused score of one merged entry (`mergeAndScore` body): semantic
and keyword contributions by weight, confidence times 0.2, an optional
recency boost, 0.05 per query word contained in the natural form, and
0.05 subject/predicate bonuses, capped at 1. -/
def Retriever.scoreOne (w : ℚ × ℚ × ℚ) (query : String) (now : ℚ)
    (c : Clause) (kw sem : ℚ) : ScoredClause :=
  let queryWords := ((splitChars Char.isWhitespace (lowerStr query).data []).filter
    (fun t => t.length > 2)).dedup
  let base := sem * w.1 + kw * w.2.1 + c.confidence * (2/10)
  let recency := if 0 < w.2.2
    then max 0 (1 - (now - c.last_accessed) / 30) * w.2.2 else 0
  let wordBonus := ((queryWords.filter
    (fun t => containsSub (lowerStr c.natural_form) t)).length : ℚ) * (5/100)
  let subjBonus := if containsSub (lowerStr query) (lowerStr c.subject)
    then (5/100 : ℚ) else 0
  let predBonus := if containsSub (lowerStr query)
      (lowerStr (underscoreToSpace c.predicate)) then (5/100 : ℚ) else 0
  { clause := c, score := min 1 (base + recency + wordBonus + subjBonus + predBonus) }

/-- The merge map of `mergeAndScore`: keyword rows enter with normalized
bm25 score `max 0 (1 + score/10)` and semantic score 0; each semantic
result either fills in the semantic score of an existing entry or pulls
the row from the database with keyword score 0. -/
def Retriever.mergeEntries (db : DB) (keywordResults : List (Clause × ℚ))
    (semanticResults : List (Nat × ℚ)) : List (Clause × ℚ × ℚ) :=
  let base := keywordResults.map (fun p => (p.1, max 0 (1 + p.2 / 10), (0 : ℚ)))
  semanticResults.foldl (fun acc r =>
    if acc.any (fun e => e.1.id = r.1) then
      acc.map (fun e => if e.1.id = r.1 then (e.1, e.2.1, r.2) else e)
    else match db.findClause r.1 with
      | some row => acc ++ [(row, 0, r.2)]
      | none => acc) base

/-- Retriever.mergeAndScore: score every merged entry and sort descending
by score. -/
def Retriever.mergeAndScore (db : DB) (keywordResults : List (Clause × ℚ))
    (semanticResults : List (Nat × ℚ)) (query : String) (now : ℚ)
    (w : ℚ × ℚ × ℚ) : List ScoredClause :=
  ((Retriever.mergeEntries db keywordResults semanticResults).map
    (fun e => Retriever.scoreOne w query now e.1 e.2.1 e.2.2)).mergeSort
    (fun a b => b.score ≤ a.score)

/-- The weight transfer of `retrieve`: when semantic search cannot be
used, its weight moves onto the keyword weight so the total stays
normalized. -/
def Retriever.actualWeights (semW kwW : ℚ) (canUse : Bool) : ℚ × ℚ :=
  if canUse then (semW, kwW) else (0, kwW + semW)

/-- Retriever.retrieve: hybrid search.  `semAvail` is
`isSemanticSearchAvailable()`; `findSimilar` is the embedding
collaborator's answer (consulted only when semantic search can be used
and the query is non-blank); `ftsOracle` is the FTS5 text index.  Logs a
retrieval access row for each returned clause (context truncated to 500
characters) and bumps its access tracking. -/
def Retriever.retrieve (cfg : RetrievalConfig) (db : DB)
    (ftsOracle : Clause → Option ℚ) (semAvail : Bool)
    (findSimilar : List (Nat × ℚ)) (now : ℚ) (query : String)
    (opts : RetrievalOptions) : RetrievalResult × DB :=
  let limit := opts.limit.getD cfg.defaultLimit
  let semanticWeight := opts.semanticWeight.getD cfg.semanticWeight
  let keywordWeight := opts.keywordWeight.getD cfg.keywordWeight
  let canUse := semAvail && decide (0 < semanticWeight)
  let keywordResults := Retriever.keywordSearch db ftsOracle query opts.types
    opts.minConfidence opts.includeExpired (limit * 2)
  let semanticResults := if canUse && !(isBlank query) then findSimilar else []
  let w := Retriever.actualWeights semanticWeight keywordWeight canUse
  let scored := Retriever.mergeAndScore db keywordResults semanticResults query now
    (w.1, w.2, if opts.boostRecent then cfg.recencyWeight else 0)
  let top := scored.take limit
  let db' := top.foldl (fun d sc =>
    (d.updateClause sc.clause.id (fun c =>
      { c with last_accessed := now, access_count := c.access_count + 1 })).logAccess
      sc.clause.id "retrieval" ⟨query.data.take 500⟩) db
  ({ clauses := top
     totalMatches := max keywordResults.length semanticResults.length
     retrievalMethod := if canUse then .hybrid else .keyword }, db')

/-! ### Claim C8 -/

/-- Claim C8: graceful degradation of retrieval.  `retrieve` is total (it
returns a result for every input instead of failing), and when the
embedding collaborator is unavailable: the reported retrievalMethod is
keyword, the semantic weight is transferred onto the keyword weight so
the pair sums to the configured total in both modes, and every returned
score is computed with semantic contribution zero (each returned clause
is `scoreOne` applied with semantic score 0 under the transferred
weights).  When the collaborator is available and the semantic weight is
positive, the reported method is hybrid. -/
theorem retrieve_degrades_without_embeddings (cfg : RetrievalConfig) (db : DB)
    (ftsOracle : Clause → Option ℚ) (findSimilar : List (Nat × ℚ)) (now : ℚ)
    (query : String) (opts : RetrievalOptions) (semW kwW : ℚ) (b : Bool) :
    (Retriever.retrieve cfg db ftsOracle false findSimilar now query
      opts).1.retrievalMethod = .keyword ∧
    Retriever.actualWeights semW kwW false = (0, kwW + semW) ∧
    (Retriever.actualWeights semW kwW b).1 + (Retriever.actualWeights semW kwW b).2 =
      semW + kwW ∧
    (∀ sc ∈ (Retriever.retrieve cfg db ftsOracle false findSimilar now query
        opts).1.clauses, ∃ c kw, sc = Retriever.scoreOne
          (0, (opts.keywordWeight.getD cfg.keywordWeight) +
            (opts.semanticWeight.getD cfg.semanticWeight),
           if opts.boostRecent then cfg.recencyWeight else 0)
          query now c (max 0 (1 + kw / 10)) 0) ∧
    (0 < opts.semanticWeight.getD cfg.semanticWeight →
      (Retriever.retrieve cfg db ftsOracle true findSimilar now query
        opts).1.retrievalMethod = .hybrid) := by
  refine ⟨rfl, rfl, ?_, ?_, ?_⟩
  · cases b
    · rw [Retriever.actualWeights, if_neg (by simp)]
      ring
    · rw [Retriever.actualWeights, if_pos rfl]
  · intro sc hsc
    have hmem : sc ∈ Retriever.mergeAndScore db
        (Retriever.keywordSearch db ftsOracle query opts.types opts.minConfidence
          opts.includeExpired ((opts.limit.getD cfg.defaultLimit) * 2)) []
        query now (0, (opts.keywordWeight.getD cfg.keywordWeight) +
          (opts.semanticWeight.getD cfg.semanticWeight),
          if opts.boostRecent then cfg.recencyWeight else 0) :=
      List.mem_of_mem_take hsc
    rw [Retriever.mergeAndScore, List.mem_mergeSort] at hmem
    obtain ⟨e, he, rfl⟩ := List.mem_map.mp hmem
    simp only [Retriever.mergeEntries, List.foldl_nil] at he
    obtain ⟨p, hp, rfl⟩ := List.mem_map.mp he
    exact ⟨p.1, p.2, rfl⟩
  · intro hpos
    have : (true && decide (0 < opts.semanticWeight.getD cfg.semanticWeight)) = true := by
      simp [hpos]
    simp only [Retriever.retrieve, this, if_true]
